import Mathlib

/-!
Verification of the trading-time-slot prediction-horizon mapper of
`stock_price_predictor`, embedded from `src/api_lambda/app/lambda_function.py`.

The spec's `TradingSlotMapper` operations (`resolve_base_hour`, `slot_index`,
`resolve_prediction_datetime`) correspond to the inline logic of
`fetch_latest_prediction` (lines 82-128).  The embedding models Python
`datetime` values as explicit `year/month/day/hour/minute/second` records,
and models every Python exception path (`ValueError` from
`datetime.replace(day=...)` and `.replace(hour=...)`, `IndexError` from list
subscripting, `ValueError` from `list.index` / `min([])`) as an `Except`
error so that "never raises" claims are statable.
-/

/-- A Gregorian calendar date, as carried by a Python `datetime.date`.
Python `datetime` objects are valid by construction; validity here is the
predicate `Date.Valid`. -/
structure Date where
  year : Nat
  month : Nat
  day : Nat
deriving DecidableEq, Repr

/-- A Python `datetime.datetime` value (timezone handling is outside the
mapper; `fetch_latest_prediction` receives already-normalized timestamps). -/
structure DateTime where
  date : Date
  hour : Nat
  minute : Nat
  second : Nat
deriving DecidableEq, Repr

/-- The configuration fields of `dataclass.StockConfiguration` consumed by the
mapper: the weekend weekday indices and the ordered trading-hour list
(`time_list`).  The `timezone` and `dict_order` fields are not consumed by the
datetime mapping and are omitted. -/
structure StockConfig where
  saturday : Nat
  sunday : Nat
  time_list : List Nat
deriving DecidableEq, Repr

/-- Gregorian leap-year rule, as implemented by Python's `datetime` module. -/
def isLeap (y : Nat) : Bool :=
  y % 4 == 0 && (y % 100 != 0 || y % 400 == 0)

/-- Number of days in a month of a given year (Python `calendar.monthrange`
semantics, used by `datetime.replace` to validate the `day` field). -/
def daysInMonth (y m : Nat) : Nat :=
  if m = 2 then (if isLeap y then 29 else 28)
  else if m = 4 ∨ m = 6 ∨ m = 9 ∨ m = 11 then 30
  else 31

/-- A date is valid exactly when Python's `datetime` constructor accepts it. -/
def Date.Valid (d : Date) : Prop :=
  1 ≤ d.year ∧ d.year ≤ 9999 ∧ 1 ≤ d.month ∧ d.month ≤ 12 ∧
    1 ≤ d.day ∧ d.day ≤ daysInMonth d.year d.month

instance (d : Date) : Decidable d.Valid := by
  unfold Date.Valid; infer_instance

/-- Days in the proleptic Gregorian calendar strictly before January 1 of
year `y` (mirrors `datetime.date.toordinal`'s `_days_before_year`). -/
def daysBeforeYear (y : Nat) : Nat :=
  365 * (y - 1) + (y - 1) / 4 + (y - 1) / 400 - (y - 1) / 100

/-- Days of year `y` strictly before month `m`. -/
def daysBeforeMonth (y m : Nat) : Nat :=
  ((List.range (m - 1)).map (fun i => daysInMonth y (i + 1))).sum

/-- Python `datetime.date.toordinal`: day 1 is 0001-01-01. -/
def toOrdinal (d : Date) : Nat :=
  daysBeforeYear d.year + daysBeforeMonth d.year d.month + d.day

/-- Python `datetime.weekday()`: Monday = 0 .. Sunday = 6.
0001-01-01 (ordinal 1) is a Monday. -/
def weekday (d : Date) : Nat :=
  (toOrdinal d - 1) % 7

/-- The Python exceptions the mapper's code paths can raise, made explicit. -/
inductive ResolveErr where
  /-- `ValueError` from `list.index` / `min` of an empty list; the spec calls
  this `ConfigurationError`. -/
  | configurationErr : ResolveErr
  /-- `ValueError` from `datetime.replace(day=d)` with `d` outside the month. -/
  | dayOutOfRange : ResolveErr
  /-- `ValueError` from `datetime.replace(hour=h)` with `h > 23`. -/
  | hourOutOfRange : ResolveErr
  /-- `IndexError` from `time_list[i]` with `i >= len(time_list)`. -/
  | indexOutOfRange : ResolveErr
deriving DecidableEq, Repr

/-- Decidable equality for `Except`, so claim witnesses can be checked by
`decide`. -/
def exceptDecEq {ε α : Type} [DecidableEq ε] [DecidableEq α] :
    (x y : Except ε α) → Decidable (x = y)
  | .error a, .error b =>
    match decEq a b with
    | isTrue h => isTrue (by rw [h])
    | isFalse h => isFalse (fun hh => h (Except.error.inj hh))
  | .error _, .ok _ => isFalse (fun hh => Except.noConfusion hh)
  | .ok _, .error _ => isFalse (fun hh => Except.noConfusion hh)
  | .ok a, .ok b =>
    match decEq a b with
    | isTrue h => isTrue (by rw [h])
    | isFalse h => isFalse (fun hh => h (Except.ok.inj hh))

instance {ε α : Type} [DecidableEq ε] [DecidableEq α] :
    DecidableEq (Except ε α) :=
  exceptDecEq

/-- Python `min(xs, key=f)` on the non-empty list `x :: xs`: iterate left to
right, keeping the current element only when its key is strictly smaller than
the incumbent's — so ties go to the first-encountered element. -/
def pyMinBy (f : Nat → Nat) (x : Nat) (xs : List Nat) : Nat :=
  xs.foldl (fun best y => if f y < f best then y else best) x

/-- `abs(x - raw)` on Python ints. -/
def absDiff (x raw : Nat) : Nat :=
  ((x : Int) - (raw : Int)).natAbs

/-- Lines 85-89: if the observed hour is not in `time_list`, snap to
`min(time_list, key=lambda x: abs(x - prediction_base_hour))`; `min` of an
empty list raises (`ConfigurationError` in the spec's vocabulary). -/
def resolve_base_hour (hours : List Nat) (raw : Nat) : Except ResolveErr Nat :=
  if raw ∈ hours then .ok raw
  else
    match hours with
    | [] => .error .configurationErr
    | x :: xs => .ok (pyMinBy (fun v => absDiff v raw) x xs)

/-- Line 91: `stock_configuration.time_list.index(prediction_base_hour)`;
`list.index` raises `ValueError` (`ConfigurationError`) when absent. -/
def slot_index (hours : List Nat) (h : Nat) : Except ResolveErr Nat :=
  match hours with
  | [] => .error .configurationErr
  | x :: xs => if x = h then .ok 0 else (slot_index xs h).map (· + 1)

/-- Python `datetime.replace(day=d)`: keeps year/month/time and validates `d`
against the (unchanged) month, raising `ValueError` otherwise. -/
def replace_day (dt : DateTime) (d : Nat) : Except ResolveErr DateTime :=
  if 1 ≤ d ∧ d ≤ daysInMonth dt.date.year dt.date.month then
    .ok { dt with date := { dt.date with day := d } }
  else .error .dayOutOfRange

/-- Python `datetime.replace(hour=h)`: validates `0 <= h <= 23`. -/
def replace_hour (dt : DateTime) (h : Nat) : Except ResolveErr DateTime :=
  if h ≤ 23 then .ok { dt with hour := h } else .error .hourOutOfRange

/-- Python list subscripting `l[i]` for a non-negative index: raises
`IndexError` when `i >= len(l)`. -/
def listGet : List Nat → Nat → Except ResolveErr Nat
  | [], _ => .error .indexOutOfRange
  | x :: _, 0 => .ok x
  | _ :: xs, n + 1 => listGet xs n

/-- The spec's `resolve_prediction_datetime(base_datetime, offset, calendar)`:
the per-key body of the loop at lines 104-128 of `fetch_latest_prediction`,
preceded by the hour resolution of lines 82-91.

* resolve the base hour (lines 85-89), find its slot (line 91);
* if `slot + offset >= len(time_list)` (line 107): advance the day by one via
  `replace(day=day+1)` (line 108); if the resulting weekday equals the
  configured saturday, advance two more days, else if it equals the configured
  sunday, advance one more (lines 111-114); set the hour to
  `time_list[slot + offset - len(time_list)]` (lines 116-124);
* otherwise set the hour to `time_list[slot + offset]` on the unchanged date
  (lines 126-128).

Any Python exception along the way propagates as an `Except.error`. -/
def resolve_prediction_datetime (cfg : StockConfig) (base : DateTime)
    (offset : Nat) : Except ResolveErr DateTime :=
  match resolve_base_hour cfg.time_list base.hour with
  | .error e => .error e
  | .ok bh =>
    match slot_index cfg.time_list bh with
    | .error e => .error e
    | .ok idx =>
      if cfg.time_list.length ≤ idx + offset then
        match replace_day base (base.date.day + 1) with
        | .error e => .error e
        | .ok d1 =>
          match (if weekday d1.date = cfg.saturday then
                   replace_day d1 (d1.date.day + 2)
                 else if weekday d1.date = cfg.sunday then
                   replace_day d1 (d1.date.day + 1)
                 else .ok d1) with
          | .error e => .error e
          | .ok d2 =>
            match listGet cfg.time_list (idx + offset - cfg.time_list.length) with
            | .error e => .error e
            | .ok h => replace_hour d2 h
      else
        match listGet cfg.time_list (idx + offset) with
        | .error e => .error e
        | .ok h => replace_hour base h

/-- The same mapping viewed from inside `fetch_latest_prediction`, where the
ambient wall clock is in scope (line 51 reads `datetime.now` into
`todays_date`, used only to choose which stored record to fetch).  The per-key
datetime mapping of lines 104-128 never consults `now`, so the embedding
ignores it. -/
def resolve_prediction_datetime_at (_now : DateTime) (cfg : StockConfig)
    (base : DateTime) (offset : Nat) : Except ResolveErr DateTime :=
  resolve_prediction_datetime cfg base offset

/-- The value `dict[str, str | dict[str, dict[str, str]]]` returned by
`lambda_handler`: each key maps to either a string or a nested
string-to-record dictionary. -/
abbrev ApiValue := Sum String (List (String × List (String × String)))

/-- A response dictionary of `lambda_handler`. -/
abbrev ApiResponse := List (String × ApiValue)

/-- Lines 197-210: the literal `{"message": "bad request"}` dictionary. -/
def bad_request_body : ApiResponse := [("message", Sum.inl "bad request")]

/-- Lines 197-210 of `lambda_handler`: after the configuration and table
objects are built (no query is issued by building them — the collaborator is
abstracted as the oracle `fetch`, standing for `fetch_latest_prediction`,
which performs the table query), dispatch on `event["handler"]`:
return `{"message": "bad request"}` when the key is absent, call
`fetch_latest_prediction` when it equals `"latest"`, and return
`{"message": "bad request"}` otherwise. -/
def lambda_handler (fetch : Unit → ApiResponse)
    (event : List (String × String)) : ApiResponse :=
  match event.lookup "handler" with
  | none => bad_request_body
  | some v => if v = "latest" then fetch () else bad_request_body

/-- A sample collaborator oracle, used only to instantiate witnesses. -/
def sample_fetch : Unit → ApiResponse :=
  fun _ => [("prediction_timestamp", Sum.inl "2024-03-04 09:00:00")]

/-- A second, distinct sample oracle. -/
def sample_fetch_other : Unit → ApiResponse :=
  fun _ => [("prediction_timestamp", Sum.inl "1999-01-01 00:00:00")]

/-! ## Helper lemmas -/

/-- Python's left-to-right `min` with a key returns the first element whose
key attains the minimum: the input splits into a prefix of strictly larger
keys, the returned element, and a suffix of no-smaller keys. -/
theorem pyMinBy_first_min (f : Nat → Nat) :
    ∀ (xs : List Nat) (x : Nat), ∃ l1 l2,
      x :: xs = l1 ++ pyMinBy f x xs :: l2 ∧
      (∀ y ∈ l1, f (pyMinBy f x xs) < f y) ∧
      (∀ y ∈ l2, f (pyMinBy f x xs) ≤ f y) := by
  intro xs
  induction xs with
  | nil =>
    intro x
    exact ⟨[], [], rfl, by simp, by simp⟩
  | cons y ys ih =>
    intro x
    have hstep : pyMinBy f x (y :: ys) = pyMinBy f (if f y < f x then y else x) ys := rfl
    by_cases hy : f y < f x
    · obtain ⟨l1, l2, heq, h1, h2⟩ := ih y
      have hr_le_y : f (pyMinBy f y ys) ≤ f y := by
        cases l1 with
        | nil =>
          have hhead : y = pyMinBy f y ys := by
            simpa using congrArg (fun l => l.head?) heq
          rw [← hhead]
        | cons a l1' =>
          have ha : y = a := by
            simpa using congrArg (fun l => l.head?) heq
          have hlt := h1 a (List.mem_cons_self a l1')
          rw [← ha] at hlt
          exact Nat.le_of_lt hlt
      refine ⟨x :: l1, l2, ?_, ?_, ?_⟩
      · rw [hstep, if_pos hy, List.cons_append]
        exact congrArg (x :: ·) heq
      · intro z hz
        rw [hstep, if_pos hy]
        rcases List.mem_cons.mp hz with hzx | hzl
        · rw [hzx]
          exact Nat.lt_of_le_of_lt hr_le_y hy
        · exact h1 z hzl
      · intro z hz
        rw [hstep, if_pos hy]
        exact h2 z hz
    · have hxy : f x ≤ f y := Nat.le_of_not_lt hy
      obtain ⟨l1, l2, heq, h1, h2⟩ := ih x
      cases l1 with
      | nil =>
        have hx : x = pyMinBy f x ys ∧ ys = l2 := by
          simpa using heq
        refine ⟨[], y :: ys, ?_, by simp, ?_⟩
        · rw [hstep, if_neg hy, List.nil_append, ← hx.1]
        · intro z hz
          rw [hstep, if_neg hy, ← hx.1]
          rcases List.mem_cons.mp hz with hzy | hzl
          · rw [hzy]
            exact hxy
          · have := h2 z (hx.2 ▸ hzl)
            rwa [← hx.1] at this
      | cons a l1' =>
        have ha : x = a ∧ ys = l1' ++ pyMinBy f x ys :: l2 := by
          simpa using heq
        have hrx : f (pyMinBy f x ys) < f x := by
          have := h1 a (List.mem_cons_self a l1')
          rwa [← ha.1] at this
        refine ⟨x :: y :: l1', l2, ?_, ?_, ?_⟩
        · rw [hstep, if_neg hy, List.cons_append, List.cons_append]
          exact congrArg (fun l => x :: y :: l) ha.2
        · intro z hz
          rw [hstep, if_neg hy]
          rcases List.mem_cons.mp hz with hzx | hz'
          · rw [hzx]
            exact hrx
          · rcases List.mem_cons.mp hz' with hzy | hzl
            · rw [hzy]
              exact Nat.lt_of_lt_of_le hrx hxy
            · exact h1 z (List.mem_cons_of_mem a hzl)
        · intro z hz
          rw [hstep, if_neg hy]
          exact h2 z hz

/-- With a non-empty hour list, `resolve_base_hour` succeeds and returns a
member of the list. -/
theorem resolve_base_hour_ok_mem (hours : List Nat) (raw : Nat)
    (hne : hours ≠ []) :
    ∃ o, resolve_base_hour hours raw = .ok o ∧ o ∈ hours := by
  unfold resolve_base_hour
  by_cases hmem : raw ∈ hours
  · exact ⟨raw, by rw [if_pos hmem], hmem⟩
  · rw [if_neg hmem]
    cases hours with
    | nil => exact absurd rfl hne
    | cons x xs =>
      refine ⟨pyMinBy (fun v => absDiff v raw) x xs, rfl, ?_⟩
      obtain ⟨l1, l2, heq, -, -⟩ := pyMinBy_first_min (fun v => absDiff v raw) xs x
      rw [heq]
      exact List.mem_append.mpr (Or.inr (List.mem_cons_self _ _))

/-- `slot_index` succeeds exactly on members of the list. -/
theorem slot_index_ok_of_mem (hours : List Nat) (h : Nat) (hmem : h ∈ hours) :
    ∃ i, slot_index hours h = .ok i := by
  induction hours with
  | nil => cases hmem
  | cons x xs ih =>
    unfold slot_index
    by_cases hx : x = h
    · exact ⟨0, by rw [if_pos hx]⟩
    · have hmem' : h ∈ xs := by
        rcases List.mem_cons.mp hmem with hh | hh
        · exact absurd hh.symm hx
        · exact hh
      obtain ⟨i, hi⟩ := ih hmem'
      exact ⟨i + 1, by rw [if_neg hx, hi]; rfl⟩

/-- `slot_index` reports `ConfigurationError` exactly when the hour is absent
(an empty list being a special case of absence). -/
theorem slot_index_error_iff (hours : List Nat) (h : Nat) :
    slot_index hours h = .error .configurationErr ↔ h ∉ hours := by
  induction hours with
  | nil => simp [slot_index]
  | cons x xs ih =>
    unfold slot_index
    by_cases hx : x = h
    · rw [if_pos hx]
      simp [hx]
    · rw [if_neg hx]
      constructor
      · intro hmap
        have : slot_index xs h = .error .configurationErr := by
          cases hrec : slot_index xs h with
          | error e => rw [hrec] at hmap; cases hmap; rfl
          | ok i => rw [hrec] at hmap; cases hmap
        intro hmem
        rcases List.mem_cons.mp hmem with hh | hh
        · exact hx hh.symm
        · exact (ih.mp this) hh
      · intro hmem
        have hnot : h ∉ xs := fun hh => hmem (List.mem_cons_of_mem x hh)
        rw [ih.mpr hnot]
        rfl

/-- In-bounds subscripting succeeds with the indexed element. -/
theorem listGet_ok : ∀ (l : List Nat) (j : Nat), j < l.length →
    listGet l j = .ok (l.getD j 0) := by
  intro l
  induction l with
  | nil => intro j hj; cases hj
  | cons x xs ih =>
    intro j hj
    cases j with
    | zero => rfl
    | succ n =>
      have : n < xs.length := Nat.lt_of_succ_lt_succ hj
      simpa [listGet, List.getD] using ih n this

/-- Out-of-bounds subscripting raises `IndexError`. -/
theorem listGet_error : ∀ (l : List Nat) (j : Nat), l.length ≤ j →
    listGet l j = .error .indexOutOfRange := by
  intro l
  induction l with
  | nil => intro j _; rfl
  | cons x xs ih =>
    intro j hj
    cases j with
    | zero => cases hj
    | succ n => exact ih n (Nat.le_of_succ_le_succ hj)

/-- An in-bounds `getD` is a member of the list. -/
theorem getD_mem_of_lt : ∀ (l : List Nat) (j : Nat), j < l.length →
    l.getD j 0 ∈ l := by
  intro l
  induction l with
  | nil => intro j hj; cases hj
  | cons x xs ih =>
    intro j hj
    cases j with
    | zero => exact List.mem_cons_self _ _
    | succ n =>
      exact List.mem_cons_of_mem x (ih n (Nat.lt_of_succ_lt_succ hj))

/-- `replace_day` only ever fails with `dayOutOfRange`. -/
theorem replace_day_error_eq (dt : DateTime) (d : Nat) (e : ResolveErr)
    (h : replace_day dt d = .error e) : e = .dayOutOfRange := by
  unfold replace_day at h
  split at h
  · cases h
  · cases h; rfl

/-- `replace_hour` only ever fails with `hourOutOfRange`. -/
theorem replace_hour_error_eq (dt : DateTime) (hr : Nat) (e : ResolveErr)
    (h : replace_hour dt hr = .error e) : e = .hourOutOfRange := by
  unfold replace_hour at h
  split at h
  · cases h
  · cases h; rfl

/-- `listGet` only ever fails with `indexOutOfRange`. -/
theorem listGet_error_eq : ∀ (l : List Nat) (j : Nat) (e : ResolveErr),
    listGet l j = .error e → e = .indexOutOfRange := by
  intro l
  induction l with
  | nil => intro j e h; cases h; rfl
  | cons x xs ih =>
    intro j e h
    cases j with
    | zero => cases h
    | succ n => exact ih n e h

/-- Successful `replace_day` pins down the result record. -/
theorem replace_day_ok_inv (dt d1 : DateTime) (d : Nat)
    (h : replace_day dt d = .ok d1) :
    d1 = { dt with date := { dt.date with day := d } } ∧
      1 ≤ d ∧ d ≤ daysInMonth dt.date.year dt.date.month := by
  unfold replace_day at h
  split at h
  · next hcond => cases h; exact ⟨rfl, hcond⟩
  · cases h

/-- Successful `replace_hour` pins down the result record. -/
theorem replace_hour_ok_inv (dt r : DateTime) (hr : Nat)
    (h : replace_hour dt hr = .ok r) :
    r = { dt with hour := hr } ∧ hr ≤ 23 := by
  unfold replace_hour at h
  split at h
  · next hcond => cases h; exact ⟨rfl, hcond⟩
  · cases h

/-- `replace_day` succeeds on an in-month day. -/
theorem replace_day_ok_eq (dt : DateTime) (d : Nat) (h1 : 1 ≤ d)
    (h2 : d ≤ daysInMonth dt.date.year dt.date.month) :
    replace_day dt d = .ok { dt with date := { dt.date with day := d } } := by
  unfold replace_day
  rw [if_pos ⟨h1, h2⟩]

/-- `replace_hour` succeeds on a valid hour-of-day. -/
theorem replace_hour_ok_eq (dt : DateTime) (hr : Nat) (h : hr ≤ 23) :
    replace_hour dt hr = .ok { dt with hour := hr } := by
  unfold replace_hour
  rw [if_pos h]

/-- Evaluation of the same-day branch (line 107 false, lines 126-128): the
date is untouched and only the hour is replaced. -/
theorem sameDayEval (cfg : StockConfig) (base : DateTime) (offset bh idx : Nat)
    (hhours : ∀ h ∈ cfg.time_list, h ≤ 23)
    (hbh : resolve_base_hour cfg.time_list base.hour = .ok bh)
    (hidx : slot_index cfg.time_list bh = .ok idx)
    (hlt : idx + offset < cfg.time_list.length) :
    resolve_prediction_datetime cfg base offset =
      .ok { base with hour := cfg.time_list.getD (idx + offset) 0 } := by
  unfold resolve_prediction_datetime
  simp only [hbh]
  simp only [hidx]
  rw [if_neg (Nat.not_le.mpr hlt)]
  simp only [listGet_ok _ _ hlt]
  exact replace_hour_ok_eq base _ (hhours _ (getD_mem_of_lt _ _ hlt))

/-- Evaluation of the overflow branch (lines 107-124) when the advanced day
numbers stay inside the base month: one day forward, then the weekend skip,
then the wrapped hour. -/
theorem overflowEval (cfg : StockConfig) (base : DateTime) (offset bh idx : Nat)
    (hhours : ∀ h ∈ cfg.time_list, h ≤ 23)
    (hbh : resolve_base_hour cfg.time_list base.hour = .ok bh)
    (hidx : slot_index cfg.time_list bh = .ok idx)
    (hge : cfg.time_list.length ≤ idx + offset)
    (hlt2 : idx + offset < 2 * cfg.time_list.length)
    (hday1 : base.date.day + 1 ≤ daysInMonth base.date.year base.date.month)
    (hsat : weekday ⟨base.date.year, base.date.month, base.date.day + 1⟩ = cfg.saturday →
      base.date.day + 3 ≤ daysInMonth base.date.year base.date.month)
    (hsun : weekday ⟨base.date.year, base.date.month, base.date.day + 1⟩ ≠ cfg.saturday →
      weekday ⟨base.date.year, base.date.month, base.date.day + 1⟩ = cfg.sunday →
      base.date.day + 2 ≤ daysInMonth base.date.year base.date.month) :
    resolve_prediction_datetime cfg base offset =
      .ok ⟨⟨base.date.year, base.date.month,
            if weekday ⟨base.date.year, base.date.month, base.date.day + 1⟩ = cfg.saturday
            then base.date.day + 3
            else if weekday ⟨base.date.year, base.date.month, base.date.day + 1⟩ = cfg.sunday
            then base.date.day + 2
            else base.date.day + 1⟩,
          cfg.time_list.getD (idx + offset - cfg.time_list.length) 0,
          base.minute, base.second⟩ := by
  have hjlt : idx + offset - cfg.time_list.length < cfg.time_list.length := by
    omega
  unfold resolve_prediction_datetime
  simp only [hbh]
  simp only [hidx]
  rw [if_pos hge]
  rw [replace_day_ok_eq base _ (Nat.le_add_left 1 _) hday1]
  simp only []
  by_cases hw1 : weekday ⟨base.date.year, base.date.month, base.date.day + 1⟩ = cfg.saturday
  · rw [if_pos hw1,
      replace_day_ok_eq
        ⟨⟨base.date.year, base.date.month, base.date.day + 1⟩,
          base.hour, base.minute, base.second⟩
        (base.date.day + 1 + 2) (by omega)
        (by show base.date.day + 1 + 2 ≤ daysInMonth base.date.year base.date.month
            have h3 := hsat hw1
            omega)]
    simp only [listGet_ok _ _ hjlt]
    rw [replace_hour_ok_eq _ _ (hhours _ (getD_mem_of_lt _ _ hjlt))]
    rw [if_pos hw1]
  · rw [if_neg hw1]
    by_cases hw2 : weekday ⟨base.date.year, base.date.month, base.date.day + 1⟩ = cfg.sunday
    · rw [if_pos hw2,
        replace_day_ok_eq
          ⟨⟨base.date.year, base.date.month, base.date.day + 1⟩,
            base.hour, base.minute, base.second⟩
          (base.date.day + 1 + 1) (by omega)
          (by show base.date.day + 1 + 1 ≤ daysInMonth base.date.year base.date.month
              have h2 := hsun hw1 hw2
              omega)]
      simp only [listGet_ok _ _ hjlt]
      rw [replace_hour_ok_eq _ _ (hhours _ (getD_mem_of_lt _ _ hjlt))]
      rw [if_neg hw1, if_pos hw2]
    · rw [if_neg hw2]
      simp only [listGet_ok _ _ hjlt]
      rw [replace_hour_ok_eq _ _ (hhours _ (getD_mem_of_lt _ _ hjlt))]
      rw [if_neg hw1, if_neg hw2]

/-! ## Claim theorems -/

/-- C1 (corrected): for a non-empty strictly increasing hour list and an
offset whose target index lies in `[len, 2*len)`, `resolve_prediction_datetime`
advances the date by one calendar day, adds two more days when the resulting
weekday equals the configured saturday index, else one more when it equals the
configured sunday index, and sets the hour to
`calendar.hours[target_index - len]` with minute/second carried — provided the
advanced day numbers remain valid days of the base month, since the source
performs the advance with `datetime.replace(day=...)`, which raises
`ValueError` past the month end instead of rolling over. -/
theorem overflow_resolution_within_month (cfg : StockConfig) (base : DateTime)
    (offset bh idx : Nat)
    (_hsorted : cfg.time_list.Pairwise (· < ·))
    (hhours : ∀ h ∈ cfg.time_list, h ≤ 23)
    (hbh : resolve_base_hour cfg.time_list base.hour = .ok bh)
    (hidx : slot_index cfg.time_list bh = .ok idx)
    (hge : cfg.time_list.length ≤ idx + offset)
    (hlt2 : idx + offset < 2 * cfg.time_list.length)
    (hday1 : base.date.day + 1 ≤ daysInMonth base.date.year base.date.month)
    (hsat : weekday ⟨base.date.year, base.date.month, base.date.day + 1⟩ = cfg.saturday →
      base.date.day + 3 ≤ daysInMonth base.date.year base.date.month)
    (hsun : weekday ⟨base.date.year, base.date.month, base.date.day + 1⟩ ≠ cfg.saturday →
      weekday ⟨base.date.year, base.date.month, base.date.day + 1⟩ = cfg.sunday →
      base.date.day + 2 ≤ daysInMonth base.date.year base.date.month) :
    resolve_prediction_datetime cfg base offset =
      .ok ⟨⟨base.date.year, base.date.month,
            if weekday ⟨base.date.year, base.date.month, base.date.day + 1⟩ = cfg.saturday
            then base.date.day + 3
            else if weekday ⟨base.date.year, base.date.month, base.date.day + 1⟩ = cfg.sunday
            then base.date.day + 2
            else base.date.day + 1⟩,
          cfg.time_list.getD (idx + offset - cfg.time_list.length) 0,
          base.minute, base.second⟩ :=
  overflowEval cfg base offset bh idx hhours hbh hidx hge hlt2 hday1 hsat hsun

/-- Witness for C1: hours `[9, 11, 13]`, saturday 5, sunday 6, base
2024-03-08 13:00:00 (a Friday), offset 1 resolves to 2024-03-11 09:00:00. -/
theorem overflow_resolution_within_month_witness :
    resolve_prediction_datetime ⟨5, 6, [9, 11, 13]⟩ ⟨⟨2024, 3, 8⟩, 13, 0, 0⟩ 1 =
      .ok ⟨⟨2024, 3, 11⟩, 9, 0, 0⟩ :=
  overflow_resolution_within_month ⟨5, 6, [9, 11, 13]⟩ ⟨⟨2024, 3, 8⟩, 13, 0, 0⟩
    1 13 2 (by decide) (by decide) (by decide) (by decide) (by decide)
    (by decide) (by decide) (by decide) (by decide)

/-- Counterexample to C1 as stated: at the in-domain input base
2024-03-31 13:00:00 with offset 1 (target index 3 ∈ [3, 6)), the source does
not advance the date; `replace(day=32)` raises `ValueError`. -/
theorem overflow_resolution_month_end_counterexample :
    resolve_prediction_datetime ⟨5, 6, [9, 11, 13]⟩ ⟨⟨2024, 3, 31⟩, 13, 0, 0⟩ 1 =
      .error .dayOutOfRange := by
  decide

/-- C2 (confirmed): when the target index stays below the cycle length, the
result keeps the base date, takes hour `calendar.hours[target_index]`, and
carries the base minute and second. -/
theorem same_day_resolution (cfg : StockConfig) (base : DateTime)
    (offset bh idx : Nat)
    (hhours : ∀ h ∈ cfg.time_list, h ≤ 23)
    (hbh : resolve_base_hour cfg.time_list base.hour = .ok bh)
    (hidx : slot_index cfg.time_list bh = .ok idx)
    (hlt : idx + offset < cfg.time_list.length) :
    resolve_prediction_datetime cfg base offset =
      .ok ⟨base.date, cfg.time_list.getD (idx + offset) 0,
            base.minute, base.second⟩ :=
  sameDayEval cfg base offset bh idx hhours hbh hidx hlt

/-- Witness for C2: hours `[9, 11, 13]`, base 2024-03-04 09:00:00, offset 1
resolves to 2024-03-04 11:00:00. -/
theorem same_day_resolution_witness :
    resolve_prediction_datetime ⟨5, 6, [9, 11, 13]⟩ ⟨⟨2024, 3, 4⟩, 9, 0, 0⟩ 1 =
      .ok ⟨⟨2024, 3, 4⟩, 11, 0, 0⟩ :=
  same_day_resolution ⟨5, 6, [9, 11, 13]⟩ ⟨⟨2024, 3, 4⟩, 9, 0, 0⟩ 1 9 0
    (by decide) (by decide) (by decide) (by decide)

/-- C3 (code_bug): the spec says `resolve_prediction_datetime` never raises
for in-domain offsets, quantified over all base dates.  At the in-domain
input base 2024-04-30 13:00:00 (last day of April), hours `[9, 11, 13]`,
offset 1 (target index 3 < 6), the code raises `ValueError` from
`datetime.replace(day=31)`: the intended one-day advance is implemented with
`replace(day=day+1)`, which cannot cross a month boundary. -/
theorem in_domain_month_end_raises :
    resolve_prediction_datetime ⟨5, 6, [9, 11, 13]⟩ ⟨⟨2024, 4, 30⟩, 13, 0, 0⟩ 1 =
      .error .dayOutOfRange := by
  decide

/-- C8 (confirmed): for every base datetime — whatever the weekday of its
date, including the configured saturday or sunday — when the target index
stays below the cycle length, the result date equals the base date: the
weekend skip can only run inside the overflow branch, strictly after the
one-day roll. -/
theorem no_weekend_skip_same_day (cfg : StockConfig) (base : DateTime)
    (offset bh idx : Nat)
    (hhours : ∀ h ∈ cfg.time_list, h ≤ 23)
    (hbh : resolve_base_hour cfg.time_list base.hour = .ok bh)
    (hidx : slot_index cfg.time_list bh = .ok idx)
    (hlt : idx + offset < cfg.time_list.length) :
    ∃ r, resolve_prediction_datetime cfg base offset = .ok r ∧
      r.date = base.date :=
  ⟨_, sameDayEval cfg base offset bh idx hhours hbh hidx hlt, rfl⟩

/-- Witness for C8: a base falling on Saturday 2024-03-09 with a same-day
target keeps its date, with no weekend adjustment. -/
theorem no_weekend_skip_same_day_witness :
    ∃ r, resolve_prediction_datetime ⟨5, 6, [9, 11, 13]⟩
        ⟨⟨2024, 3, 9⟩, 9, 30, 15⟩ 1 = .ok r ∧ r.date = ⟨2024, 3, 9⟩ :=
  no_weekend_skip_same_day ⟨5, 6, [9, 11, 13]⟩ ⟨⟨2024, 3, 9⟩, 9, 30, 15⟩ 1 9 0
    (by decide) (by decide) (by decide) (by decide)

/-- C4 (corrected): for out-of-domain offsets (target index at least twice
the cycle length), the literal code does not return a wrong-but-valid result:
it crashes.  After the single day advance, `time_list[target_index - len]` is
subscripted with an index that is still `>= len`, raising `IndexError` (or
`ValueError` even earlier at a month boundary); no datetime is ever
returned. -/
theorem out_of_domain_offset_never_returns (cfg : StockConfig)
    (base : DateTime) (offset bh idx : Nat)
    (hbh : resolve_base_hour cfg.time_list base.hour = .ok bh)
    (hidx : slot_index cfg.time_list bh = .ok idx)
    (hge2 : 2 * cfg.time_list.length ≤ idx + offset) :
    ¬ ∃ dt, resolve_prediction_datetime cfg base offset = .ok dt := by
  rintro ⟨dt, hdt⟩
  unfold resolve_prediction_datetime at hdt
  simp only [hbh] at hdt
  simp only [hidx] at hdt
  rw [if_pos (by omega : cfg.time_list.length ≤ idx + offset)] at hdt
  cases hrd : replace_day base (base.date.day + 1) with
  | error e =>
    rw [hrd] at hdt
    simp at hdt
  | ok d1 =>
    rw [hrd] at hdt
    simp only [] at hdt
    cases hwk : (if weekday d1.date = cfg.saturday then
        replace_day d1 (d1.date.day + 2)
      else if weekday d1.date = cfg.sunday then
        replace_day d1 (d1.date.day + 1)
      else Except.ok d1) with
    | error e =>
      rw [hwk] at hdt
      simp at hdt
    | ok d2 =>
      rw [hwk] at hdt
      rw [listGet_error _ _
        (by omega : cfg.time_list.length ≤ idx + offset - cfg.time_list.length)] at hdt
      simp at hdt

/-- Counterexample to C4 as stated: at hours `[9, 11, 13]`, base
2024-03-04 09:00:00, offset 6 (target index 6 ≥ 2·3), the code does not
return a result; it raises `IndexError` from `time_list[3]`. -/
theorem out_of_domain_offset_crashes_example :
    resolve_prediction_datetime ⟨5, 6, [9, 11, 13]⟩ ⟨⟨2024, 3, 4⟩, 9, 0, 0⟩ 6 =
      .error .indexOutOfRange := by
  decide

/-- Witness for C4's amended claim at the same concrete input. -/
theorem out_of_domain_offset_never_returns_witness :
    ¬ ∃ dt, resolve_prediction_datetime ⟨5, 6, [9, 11, 13]⟩
        ⟨⟨2024, 3, 4⟩, 9, 0, 0⟩ 6 = .ok dt :=
  out_of_domain_offset_never_returns ⟨5, 6, [9, 11, 13]⟩
    ⟨⟨2024, 3, 4⟩, 9, 0, 0⟩ 6 9 0 (by decide) (by decide) (by decide)

/-- C5 (confirmed): for any hour-of-day and non-empty hour list,
`resolve_base_hour` never raises and returns a member of the list: the raw
hour itself when present, and otherwise the first element in list order whose
absolute distance to the raw hour is minimal (every earlier element is
strictly farther, every later element no closer). -/
theorem resolve_base_hour_total_nearest (hours : List Nat) (raw : Nat)
    (hne : hours ≠ []) (_hraw : raw ≤ 23) :
    ∃ o, resolve_base_hour hours raw = .ok o ∧ o ∈ hours ∧
      (raw ∈ hours → o = raw) ∧
      (raw ∉ hours → ∃ l1 l2, hours = l1 ++ o :: l2 ∧
        (∀ y ∈ l1, absDiff o raw < absDiff y raw) ∧
        (∀ y ∈ l2, absDiff o raw ≤ absDiff y raw)) := by
  by_cases hmem : raw ∈ hours
  · refine ⟨raw, ?_, hmem, fun _ => rfl, fun hno => absurd hmem hno⟩
    unfold resolve_base_hour
    rw [if_pos hmem]
  · cases hours with
    | nil => exact absurd rfl hne
    | cons x xs =>
      obtain ⟨l1, l2, heq, h1, h2⟩ :=
        pyMinBy_first_min (fun v => absDiff v raw) xs x
      refine ⟨pyMinBy (fun v => absDiff v raw) x xs, ?_, ?_,
        fun hin => absurd hin hmem, fun _ => ⟨l1, l2, heq, h1, h2⟩⟩
      · unfold resolve_base_hour
        rw [if_neg hmem]
      · rw [heq]
        exact List.mem_append.mpr (Or.inr (List.mem_cons_self _ _))

/-- Witness for C5: hours `[9, 11, 13]` and raw hour 10: both 9 and 11 are at
distance 1, and the first-encountered 9 is returned. -/
theorem resolve_base_hour_total_nearest_witness :
    resolve_base_hour [9, 11, 13] 10 = .ok 9 ∧
      (∃ o, resolve_base_hour [9, 11, 13] 10 = .ok o ∧ o ∈ [9, 11, 13] ∧
        (10 ∈ [9, 11, 13] → o = 10) ∧
        (10 ∉ [9, 11, 13] → ∃ l1 l2, [9, 11, 13] = l1 ++ o :: l2 ∧
          (∀ y ∈ l1, absDiff o 10 < absDiff y 10) ∧
          (∀ y ∈ l2, absDiff o 10 ≤ absDiff y 10))) :=
  ⟨by decide,
    resolve_base_hour_total_nearest [9, 11, 13] 10 (by decide) (by decide)⟩

/-- C6 (confirmed): the prediction-datetime mapping is a pure function of the
base timestamp, the offset and the calendar configuration: its result does
not depend on the ambient wall clock read by the surrounding handler, so two
invocations on identical arguments give identical results. -/
theorem mapping_clock_independent (now1 now2 : DateTime) (cfg : StockConfig)
    (base : DateTime) (offset : Nat) :
    resolve_prediction_datetime_at now1 cfg base offset =
      resolve_prediction_datetime_at now2 cfg base offset :=
  rfl

/-- C7 (confirmed): `slot_index` fails with `ConfigurationError` exactly when
its hour is absent from the list (an empty list being a special case), and
`resolve_prediction_datetime` on a non-empty hour list can never surface a
`ConfigurationError`, because the hour is pre-resolved by `resolve_base_hour`
to a member of the list. -/
theorem configuration_error_characterization (hours : List Nat) (h : Nat)
    (cfg : StockConfig) (base : DateTime) (offset : Nat)
    (hne : cfg.time_list ≠ []) :
    (slot_index hours h = .error .configurationErr ↔ h ∉ hours) ∧
      resolve_prediction_datetime cfg base offset ≠
        .error .configurationErr := by
  refine ⟨slot_index_error_iff hours h, ?_⟩
  obtain ⟨bh, hbh, hmem⟩ := resolve_base_hour_ok_mem cfg.time_list base.hour hne
  obtain ⟨idx, hidx⟩ := slot_index_ok_of_mem cfg.time_list bh hmem
  intro hcontra
  unfold resolve_prediction_datetime at hcontra
  simp only [hbh] at hcontra
  simp only [hidx] at hcontra
  by_cases hc : cfg.time_list.length ≤ idx + offset
  · rw [if_pos hc] at hcontra
    cases hrd : replace_day base (base.date.day + 1) with
    | error e =>
      rw [hrd] at hcontra
      simp only [] at hcontra
      have he := replace_day_error_eq base _ e hrd
      subst he
      exact absurd (Except.error.inj hcontra) (by decide)
    | ok d1 =>
      rw [hrd] at hcontra
      simp only [] at hcontra
      cases hwk : (if weekday d1.date = cfg.saturday then
          replace_day d1 (d1.date.day + 2)
        else if weekday d1.date = cfg.sunday then
          replace_day d1 (d1.date.day + 1)
        else Except.ok d1) with
      | error e =>
        rw [hwk] at hcontra
        simp only [] at hcontra
        have he : e = .dayOutOfRange := by
          split at hwk
          · exact replace_day_error_eq _ _ _ hwk
          · split at hwk
            · exact replace_day_error_eq _ _ _ hwk
            · cases hwk
        subst he
        exact absurd (Except.error.inj hcontra) (by decide)
      | ok d2 =>
        rw [hwk] at hcontra
        simp only [] at hcontra
        cases hlg : listGet cfg.time_list (idx + offset - cfg.time_list.length) with
        | error e =>
          rw [hlg] at hcontra
          simp only [] at hcontra
          have he := listGet_error_eq _ _ _ hlg
          subst he
          exact absurd (Except.error.inj hcontra) (by decide)
        | ok hr =>
          rw [hlg] at hcontra
          simp only [] at hcontra
          exact absurd (replace_hour_error_eq d2 hr _ hcontra) (by decide)
  · rw [if_neg hc] at hcontra
    cases hlg : listGet cfg.time_list (idx + offset) with
    | error e =>
      rw [hlg] at hcontra
      simp only [] at hcontra
      have he := listGet_error_eq _ _ _ hlg
      subst he
      exact absurd (Except.error.inj hcontra) (by decide)
    | ok hr =>
      rw [hlg] at hcontra
      simp only [] at hcontra
      exact absurd (replace_hour_error_eq base hr _ hcontra) (by decide)

/-- Witness for C7: hour 10 is absent from `[9, 11, 13]`, so `slot_index`
reports `ConfigurationError` there; the public resolution on the same
calendar never does. -/
theorem configuration_error_characterization_witness :
    (slot_index [9, 11, 13] 10 = .error .configurationErr ↔
      10 ∉ [9, 11, 13]) ∧
      resolve_prediction_datetime ⟨5, 6, [9, 11, 13]⟩
        ⟨⟨2024, 3, 4⟩, 10, 0, 0⟩ 1 ≠ .error .configurationErr :=
  configuration_error_characterization [9, 11, 13] 10 ⟨5, 6, [9, 11, 13]⟩
    ⟨⟨2024, 3, 4⟩, 10, 0, 0⟩ 1 (by decide)

/-- C9 (confirmed): `lambda_handler` returns exactly the dictionary
`{"message": "bad request"}` whenever the event lacks a `"handler"` key or
carries any value other than `"latest"`, and in that case the result does not
depend on the prediction-fetch collaborator (the table is never queried); the
fetch path runs exactly when `event["handler"] == "latest"`. -/
theorem handler_dispatch_gate (fetch1 fetch2 : Unit → ApiResponse)
    (event : List (String × String)) :
    (event.lookup "handler" ≠ some "latest" →
      lambda_handler fetch1 event = bad_request_body ∧
      lambda_handler fetch1 event = lambda_handler fetch2 event) ∧
    (event.lookup "handler" = some "latest" →
      lambda_handler fetch1 event = fetch1 ()) := by
  unfold lambda_handler
  cases hlk : event.lookup "handler" with
  | none =>
    refine ⟨fun _ => ⟨rfl, rfl⟩, fun hcontra => ?_⟩
    cases hcontra
  | some v =>
    simp only []
    by_cases hv : v = "latest"
    · subst hv
      refine ⟨fun hne => absurd rfl hne, fun _ => ?_⟩
      rw [if_pos rfl]
    · refine ⟨fun _ => ?_, fun heq => ?_⟩
      · simp [if_neg hv]
      · exact absurd (Option.some.inj heq) hv

/-- Witness for C9: a `"handler": "foo"` event gets the bad-request
dictionary regardless of the collaborator, and a `"handler": "latest"` event
gets the collaborator's response. -/
theorem handler_dispatch_gate_witness :
    (lambda_handler sample_fetch [("handler", "foo")] = bad_request_body ∧
      lambda_handler sample_fetch [("handler", "foo")] =
        lambda_handler sample_fetch_other [("handler", "foo")]) ∧
      lambda_handler sample_fetch [("handler", "latest")] = sample_fetch () :=
  ⟨(handler_dispatch_gate sample_fetch sample_fetch_other
      [("handler", "foo")]).1 (by decide),
    (handler_dispatch_gate sample_fetch sample_fetch_other
      [("handler", "latest")]).2 (by decide)⟩

/-- C10 (confirmed): whenever `resolve_prediction_datetime` produces a
result, its date is the base date advanced by exactly 0, 1, 2 or 3 calendar
days — 0 in the same-day branch, and in the overflow branch 1+2 when the
rolled date's weekday equals the configured saturday, else 1+1 when it equals
the configured sunday, else 1 — with the two weekend-skip branches mutually
exclusive and no weekday re-check afterwards (the `+ 3` and `+ 2` outcomes
stand whatever weekday they land on). -/
theorem day_advance_branches (cfg : StockConfig) (base : DateTime)
    (offset : Nat) (r : DateTime)
    (hres : resolve_prediction_datetime cfg base offset = .ok r) :
    ∃ bh idx, resolve_base_hour cfg.time_list base.hour = .ok bh ∧
      slot_index cfg.time_list bh = .ok idx ∧
      r.date.year = base.date.year ∧ r.date.month = base.date.month ∧
      r.minute = base.minute ∧ r.second = base.second ∧
      ((idx + offset < cfg.time_list.length ∧ r.date.day = base.date.day) ∨
       (cfg.time_list.length ≤ idx + offset ∧
         ((weekday ⟨base.date.year, base.date.month, base.date.day + 1⟩ =
             cfg.saturday ∧ r.date.day = base.date.day + 3) ∨
          (weekday ⟨base.date.year, base.date.month, base.date.day + 1⟩ ≠
             cfg.saturday ∧
           weekday ⟨base.date.year, base.date.month, base.date.day + 1⟩ =
             cfg.sunday ∧ r.date.day = base.date.day + 2) ∨
          (weekday ⟨base.date.year, base.date.month, base.date.day + 1⟩ ≠
             cfg.saturday ∧
           weekday ⟨base.date.year, base.date.month, base.date.day + 1⟩ ≠
             cfg.sunday ∧ r.date.day = base.date.day + 1)))) := by
  unfold resolve_prediction_datetime at hres
  cases hb : resolve_base_hour cfg.time_list base.hour with
  | error e =>
    rw [hb] at hres
    simp at hres
  | ok bh =>
    rw [hb] at hres
    simp only [] at hres
    cases hi : slot_index cfg.time_list bh with
    | error e =>
      rw [hi] at hres
      simp at hres
    | ok idx =>
      rw [hi] at hres
      simp only [] at hres
      refine ⟨bh, idx, rfl, hi, ?_⟩
      by_cases hc : cfg.time_list.length ≤ idx + offset
      · rw [if_pos hc] at hres
        cases hrd : replace_day base (base.date.day + 1) with
        | error e =>
          rw [hrd] at hres
          simp at hres
        | ok d1 =>
          rw [hrd] at hres
          simp only [] at hres
          obtain ⟨hd1, -, -⟩ := replace_day_ok_inv base d1 _ hrd
          subst hd1
          by_cases hw1 : weekday ⟨base.date.year, base.date.month,
              base.date.day + 1⟩ = cfg.saturday
          · rw [if_pos hw1] at hres
            cases hrd2 : replace_day
                ⟨⟨base.date.year, base.date.month, base.date.day + 1⟩,
                  base.hour, base.minute, base.second⟩
                (base.date.day + 1 + 2) with
            | error e =>
              rw [hrd2] at hres
              simp at hres
            | ok d2 =>
              rw [hrd2] at hres
              simp only [] at hres
              obtain ⟨hd2, -, -⟩ := replace_day_ok_inv _ d2 _ hrd2
              subst hd2
              cases hlg : listGet cfg.time_list
                  (idx + offset - cfg.time_list.length) with
              | error e =>
                rw [hlg] at hres
                simp at hres
              | ok hr =>
                rw [hlg] at hres
                simp only [] at hres
                obtain ⟨hreq, -⟩ := replace_hour_ok_inv _ r hr hres
                subst hreq
                exact ⟨rfl, rfl, rfl, rfl,
                  Or.inr ⟨hc, Or.inl ⟨hw1, by
                    show base.date.day + 1 + 2 = base.date.day + 3
                    omega⟩⟩⟩
          · rw [if_neg hw1] at hres
            by_cases hw2 : weekday ⟨base.date.year, base.date.month,
                base.date.day + 1⟩ = cfg.sunday
            · rw [if_pos hw2] at hres
              cases hrd2 : replace_day
                  ⟨⟨base.date.year, base.date.month, base.date.day + 1⟩,
                    base.hour, base.minute, base.second⟩
                  (base.date.day + 1 + 1) with
              | error e =>
                rw [hrd2] at hres
                simp at hres
              | ok d2 =>
                rw [hrd2] at hres
                simp only [] at hres
                obtain ⟨hd2, -, -⟩ := replace_day_ok_inv _ d2 _ hrd2
                subst hd2
                cases hlg : listGet cfg.time_list
                    (idx + offset - cfg.time_list.length) with
                | error e =>
                  rw [hlg] at hres
                  simp at hres
                | ok hr =>
                  rw [hlg] at hres
                  simp only [] at hres
                  obtain ⟨hreq, -⟩ := replace_hour_ok_inv _ r hr hres
                  subst hreq
                  exact ⟨rfl, rfl, rfl, rfl,
                    Or.inr ⟨hc, Or.inr (Or.inl ⟨hw1, hw2, by
                      show base.date.day + 1 + 1 = base.date.day + 2
                      omega⟩)⟩⟩
            · rw [if_neg hw2] at hres
              cases hlg : listGet cfg.time_list
                  (idx + offset - cfg.time_list.length) with
              | error e =>
                rw [hlg] at hres
                simp at hres
              | ok hr =>
                rw [hlg] at hres
                simp only [] at hres
                obtain ⟨hreq, -⟩ := replace_hour_ok_inv _ r hr hres
                subst hreq
                exact ⟨rfl, rfl, rfl, rfl,
                  Or.inr ⟨hc, Or.inr (Or.inr ⟨hw1, hw2, rfl⟩)⟩⟩
      · rw [if_neg hc] at hres
        cases hlg : listGet cfg.time_list (idx + offset) with
        | error e =>
          rw [hlg] at hres
          simp at hres
        | ok hr =>
          rw [hlg] at hres
          simp only [] at hres
          obtain ⟨hreq, -⟩ := replace_hour_ok_inv base r hr hres
          subst hreq
          exact ⟨rfl, rfl, rfl, rfl,
            Or.inl ⟨Nat.lt_of_not_le hc, rfl⟩⟩

/-- Witness for C10 at the Friday-overflow example: the produced result's
date is the base date advanced by exactly 1+2 days through the saturday
branch. -/
theorem day_advance_branches_witness :
    ∃ bh idx, resolve_base_hour [9, 11, 13] 13 = .ok bh ∧
      slot_index [9, 11, 13] bh = .ok idx ∧
      (2024 : Nat) = 2024 ∧ (3 : Nat) = 3 ∧ (0 : Nat) = 0 ∧ (0 : Nat) = 0 ∧
      ((idx + 1 < 3 ∧ (11 : Nat) = 8) ∨
       (3 ≤ idx + 1 ∧
         ((weekday ⟨2024, 3, 9⟩ = 5 ∧ (11 : Nat) = 8 + 3) ∨
          (weekday ⟨2024, 3, 9⟩ ≠ 5 ∧ weekday ⟨2024, 3, 9⟩ = 6 ∧
            (11 : Nat) = 8 + 2) ∨
          (weekday ⟨2024, 3, 9⟩ ≠ 5 ∧ weekday ⟨2024, 3, 9⟩ ≠ 6 ∧
            (11 : Nat) = 8 + 1)))) :=
  day_advance_branches ⟨5, 6, [9, 11, 13]⟩ ⟨⟨2024, 3, 8⟩, 13, 0, 0⟩ 1
    ⟨⟨2024, 3, 11⟩, 9, 0, 0⟩ (by decide)

